import Mathlib

/-!
Verification of the Syntropy memory-allocator family against its specification.

Each C++ component relevant to the verified claims is shallowly embedded as an
executable Lean definition; machine addresses and sizes are modelled as `Nat`
(pointer arithmetic in the source never relies on wrap-around in the verified
scenarios). Stateful classes become explicit state records, and every member
function becomes a pure state-passing function translated line by line from its
source. Debug-mode `SYNTROPY_ASSERT` checks that guard fatal conditions are
modelled as explicit failure outcomes where a claim depends on them.
-/

namespace Syntropy

/-! ## Address alignment arithmetic

Embeds `MemoryAddressT::GetAligned` (memory_address.h):
`(uintptr_t(*this) + alignment_mask) & ~alignment_mask` with
`alignment_mask = alignment - 1`. For a power-of-two `alignment` the mask
expression rounds the address up to the next multiple of `alignment`, which on
`Nat` is `(addr + alignment - 1) / alignment * alignment`. -/
def getAligned (addr alignment : Nat) : Nat :=
  (addr + alignment - 1) / alignment * alignment

/-- Rounding up via `getAligned` yields a multiple of the alignment. -/
theorem getAligned_dvd (addr alignment : Nat) : alignment ∣ getAligned addr alignment :=
  Dvd.intro_left _ rfl

/-- Rounding up never moves the address backwards (for a positive alignment). -/
theorem le_getAligned (addr alignment : Nat) (h : 0 < alignment) :
    addr ≤ getAligned addr alignment := by
  unfold getAligned
  have h1 := Nat.div_add_mod (addr + alignment - 1) alignment
  have h2 : (addr + alignment - 1) % alignment < alignment := Nat.mod_lt _ h
  rw [Nat.mul_comm]
  omega

/-- The `getAligned` computation agrees with the source's bit-mask formula
`(addr + (a - 1)) &&& ~(a - 1)` whenever the alignment is a power of two:
both erase the low `k` bits of `addr + 2 ^ k - 1`. -/
theorem getAligned_eq_mask (addr k : Nat) :
    getAligned addr (2 ^ k) = ((addr + (2 ^ k - 1)) >>> k) <<< k := by
  have hpos : 0 < 2 ^ k := Nat.pos_pow_of_pos k (by decide)
  have h : addr + (2 ^ k - 1) = addr + 2 ^ k - 1 := by omega
  simp only [Nat.shiftLeft_eq, Nat.shiftRight_eq_div_pow, getAligned, h]

/-! ## SequentialMemoryResource (sequential_memory_resource.h)

State is the managed `MemoryRange` (`memory_range_`, modelled from the spec as
the pair of its bounds `[begin, end)`) together with the bump pointer `head_`.
`MemoryRange` itself lives in a header absent from the sources; the spec
describes it as a `[begin, end)` value type with invariant `begin <= end`. -/

structure SequentialMemoryResource where
  /-- Lower bound of `memory_range_`. -/
  rangeBegin : Nat
  /-- Upper bound (one past the end) of `memory_range_`. -/
  rangeEnd : Nat
  /-- Pointer past the last allocated address (`head_`). -/
  head : Nat
  deriving Repr, DecidableEq

namespace SequentialMemoryResource

/-- Embeds the constructor `SequentialMemoryResource(memory_range)`:
the head starts at the beginning of the managed range. -/
def mk0 (rangeBegin rangeEnd : Nat) : SequentialMemoryResource :=
  ⟨rangeBegin, rangeEnd, rangeBegin⟩

/-- Embeds `SequentialMemoryResource::Allocate(size, alignment)`:
align the head, advance it by `size` if the result still fits before the end
of the managed range, and return the block `[block, head)`; otherwise return
an empty range (modelled as `none`) and leave the state untouched. -/
def Allocate (s : SequentialMemoryResource) (size alignment : Nat) :
    SequentialMemoryResource × Option (Nat × Nat) :=
  let block := getAligned s.head alignment
  let head := block + size
  if head ≤ s.rangeEnd then
    ({ s with head := head }, some (block, head))
  else
    (s, none)

/-- Embeds `SequentialMemoryResource::SaveState()`: returns `head_`. -/
def SaveState (s : SequentialMemoryResource) : Nat := s.head

/-- Embeds `SequentialMemoryResource::RestoreState(head)`: overwrites `head_`. -/
def RestoreState (s : SequentialMemoryResource) (head : Nat) :
    SequentialMemoryResource :=
  { s with head := head }

/-- Runs a sequence of `Allocate(size, alignment)` requests, collecting the
results in order. -/
def RunSequence (s : SequentialMemoryResource) :
    List (Nat × Nat) → SequentialMemoryResource × List (Option (Nat × Nat))
  | [] => (s, [])
  | (size, alignment) :: rest =>
      let (s', r) := Allocate s size alignment
      let (s'', rs) := RunSequence s' rest
      (s'', r :: rs)

end SequentialMemoryResource

/-! ## LinearAllocator (memory/allocators/linear_allocator.h)

The plain linear allocator has the same state and `Allocate` as
`SequentialMemoryResource` but supports deallocating the most recent block. -/

structure LinearAllocator where
  /-- Lower bound of `memory_range_`. -/
  rangeBegin : Nat
  /-- Upper bound (one past the end) of `memory_range_`. -/
  rangeEnd : Nat
  /-- Pointer past the last allocated address (`head_`). -/
  head : Nat
  deriving Repr, DecidableEq

namespace LinearAllocator

/-- Embeds `LinearAllocator::Allocate(size, alignment)`: identical logic to
the sequential memory resource. -/
def Allocate (s : LinearAllocator) (size alignment : Nat) :
    LinearAllocator × Option (Nat × Nat) :=
  let block := getAligned s.head alignment
  let head := block + size
  if head ≤ s.rangeEnd then
    ({ s with head := head }, some (block, head))
  else
    (s, none)

/-- Embeds `LinearAllocator::Deallocate(block)` for a block `[b, e)`:
only when the block ends exactly at the current head is the head rewound to
the block's begin; otherwise nothing happens. The debug assertion
`memory_range_.Contains(block)` is a precondition stated on the theorems. -/
def Deallocate (s : LinearAllocator) (blockBegin blockEnd : Nat) :
    LinearAllocator :=
  if blockEnd = s.head then { s with head := blockBegin } else s

end LinearAllocator

/-! ## QuotaAllocator (allocators/quota_allocator.h)

`QuotaAllocator<TAllocator>` wraps an arbitrary underlying allocator, so the
embedding is parameterized over the underlying allocator's state type `σ` and
its behaviour. `Bytes` is a strongly typed `std::int64_t`, modelled as `Int`.
The underlying `Allocate` is summarized by the size of the span it returns
(`Size(block)`, with an empty span having size 0), which is the only attribute
of the block the quota allocator inspects. -/

/-- Behaviour of an underlying allocator `TAllocator`: `alloc` maps a state
and a `(size, alignment)` request to the next state plus `Size(block)` of the
returned span; `dealloc` maps a state and the deallocated block's size and
alignment to the next state. -/
structure AllocatorModel (σ : Type) where
  alloc : σ → Int → Int → σ × Int
  dealloc : σ → Int → Int → σ

/-- State of `QuotaAllocator<TAllocator>`: the underlying allocator
(`allocator_`), the quota (`quota_`) and the running counter
(`allocation_size_`). -/
structure QuotaAllocator (σ : Type) where
  allocator : σ
  quota : Int
  allocationSize : Int

namespace QuotaAllocator

variable {σ : Type}

/-- Embeds `QuotaAllocator::Allocate(size, alignment)`: when
`allocation_size_ + size <= quota_` the request is forwarded to the underlying
allocator and the counter grows by the size of the block actually returned;
otherwise an empty block (size 0) is returned and the underlying allocator is
not called. The returned `Int` is `Size` of the resulting span. -/
def Allocate (M : AllocatorModel σ) (q : QuotaAllocator σ)
    (size alignment : Int) : QuotaAllocator σ × Int :=
  if q.allocationSize + size ≤ q.quota then
    let block := M.alloc q.allocator size alignment
    ({ allocator := block.1, quota := q.quota,
       allocationSize := q.allocationSize + block.2 }, block.2)
  else
    (q, 0)

/-- Embeds `QuotaAllocator::Deallocate(block, alignment)`: always forwards to
the underlying allocator and decreases the counter by `Size(block)`. -/
def Deallocate (M : AllocatorModel σ) (q : QuotaAllocator σ)
    (blockSize alignment : Int) : QuotaAllocator σ :=
  { allocator := M.dealloc q.allocator blockSize alignment,
    quota := q.quota,
    allocationSize := q.allocationSize - blockSize }

/-- Embeds `QuotaAllocator::GetAllocationSize()`: returns `allocation_size_`. -/
def GetAllocationSize (q : QuotaAllocator σ) : Int := q.allocationSize

/-- Embeds `QuotaAllocator::GetQuota()`: returns `quota_`. -/
def GetQuota (q : QuotaAllocator σ) : Int := q.quota

end QuotaAllocator

/-! ## BlockAllocator and MonotonicBlockAllocator (memory/block_allocator.cpp)

Fixed-size block pools over a reserved range. `SYNTROPY_ASSERT` is a
debug-mode assertion that aborts the program when violated; operations whose
source contains one are modelled with an explicit `assertViolation` outcome.
The base address returned by `Memory::Reserve` is kept abstract. -/

/-- Outcome of an operation guarded by debug assertions: either a value or a
fatal `SYNTROPY_ASSERT` violation (trap/abort in debug builds). -/
inductive DebugResult (α : Type) where
  | ok (value : α)
  | assertViolation
  deriving Repr, DecidableEq

/-- Modelled from the spec: `Math::Ceil` (the header math/math.h is absent
from the sources); §4.2 describes it as rounding up to the next multiple of
the second argument. -/
def mathCeil (x y : Nat) : Nat := (x + y - 1) / y * y

/-- State of `BlockAllocator`: rounded block size (`block_size_`), rounded
capacity (`capacity_`), the reserved range base (`base_`), the first never
handed-out address (`head_`) and the stack of freed block addresses
(`free_base_ .. free_head_`, most recently pushed first). -/
structure BlockAllocator where
  blockSize : Nat
  capacity : Nat
  base : Nat
  head : Nat
  freeStack : List Nat
  deriving Repr, DecidableEq

namespace BlockAllocator

/-- Embeds the `BlockAllocator(capacity, block_size)` constructor:
`block_size_` is rounded up to the allocation granularity, `capacity_` up to a
multiple of the rounded block size, and the head starts at the base of the
reserved range. -/
def mk0 (capacity blockSize granularity base : Nat) : BlockAllocator :=
  let blockSize := mathCeil blockSize granularity
  { blockSize := blockSize
    capacity := mathCeil capacity blockSize
    base := base
    head := base
    freeStack := [] }

/-- Embeds `BlockAllocator::GetSize()`:
`std::distance(base_, head_) - std::distance(free_base_, free_head_) * block_size_`. -/
def GetSize (a : BlockAllocator) : Nat :=
  (a.head - a.base) - a.freeStack.length * a.blockSize

/-- Embeds `BlockAllocator::Allocate()` (which forwards to
`Allocate(block_size_)`): pop a freed block if one exists, otherwise hand out
the block at the head, advance the head by `block_size_` and check the
capacity assertion `SYNTROPY_ASSERT(GetSize() <= capacity_)`. The commit of
the block's pages is a provider call with no effect on this state. -/
def Allocate (a : BlockAllocator) : DebugResult (Nat × BlockAllocator) :=
  match a.freeStack with
  | [] =>
      let block := a.head
      let a' := { a with head := a.head + a.blockSize }
      if a'.GetSize ≤ a.capacity then .ok (block, a') else .assertViolation
  | block :: rest => .ok (block, { a with freeStack := rest })

/-- Embeds `BlockAllocator::Free(block)`: assert the address lies in
`[base_, head_)`, align it down to the block boundary, push it on the free
stack and decommit it (a provider call with no effect on this state). -/
def Free (a : BlockAllocator) (block : Nat) : DebugResult BlockAllocator :=
  if a.base ≤ block ∧ block < a.head then
    let block := block - block % a.blockSize
    .ok { a with freeStack := block :: a.freeStack }
  else
    .assertViolation

/-- Runs `count` consecutive `Allocate()` calls, collecting the returned
block addresses in order. -/
def AllocateN (a : BlockAllocator) : Nat → DebugResult (List Nat × BlockAllocator)
  | 0 => .ok ([], a)
  | count + 1 =>
      match a.Allocate with
      | .assertViolation => .assertViolation
      | .ok (block, a') =>
          match a'.AllocateN count with
          | .assertViolation => .assertViolation
          | .ok (blocks, a'') => .ok (block :: blocks, a'')

end BlockAllocator

/-- State of `MonotonicBlockAllocator`: as `BlockAllocator`, but freed blocks
are kept on an intrusive singly linked list (`free_`, most recently freed
first) and are never decommitted. -/
structure MonotonicBlockAllocator where
  blockSize : Nat
  capacity : Nat
  base : Nat
  head : Nat
  free : List Nat
  deriving Repr, DecidableEq

namespace MonotonicBlockAllocator

/-- Embeds the `MonotonicBlockAllocator(capacity, block_size)` constructor. -/
def mk0 (capacity blockSize granularity base : Nat) : MonotonicBlockAllocator :=
  let blockSize := mathCeil blockSize granularity
  { blockSize := blockSize
    capacity := mathCeil capacity blockSize
    base := base
    head := base
    free := [] }

/-- Embeds `MonotonicBlockAllocator::GetSize()`:
`std::distance(base_, head_)` — the free list is not subtracted. -/
def GetSize (m : MonotonicBlockAllocator) : Nat := m.head - m.base

/-- Embeds `MonotonicBlockAllocator::Allocate()`: recycle the first free block
if any, otherwise commit and hand out the block at the head, advance the head
and check `SYNTROPY_ASSERT(GetSize() <= capacity_)`. -/
def Allocate (m : MonotonicBlockAllocator) :
    DebugResult (Nat × MonotonicBlockAllocator) :=
  match m.free with
  | block :: rest => .ok (block, { m with free := rest })
  | [] =>
      let block := m.head
      let m' := { m with head := m.head + m.blockSize }
      if m'.GetSize ≤ m.capacity then .ok (block, m') else .assertViolation

/-- Embeds `MonotonicBlockAllocator::Free(block)`: assert containment, align
the address down to the block boundary and push it on the free list. -/
def Free (m : MonotonicBlockAllocator) (block : Nat) :
    DebugResult MonotonicBlockAllocator :=
  if m.base ≤ block ∧ block < m.head then
    let block := block - block % m.blockSize
    .ok { m with free := block :: m.free }
  else
    .assertViolation

/-- Runs `count` consecutive `Allocate()` calls, collecting the returned
block addresses in order. -/
def AllocateN (m : MonotonicBlockAllocator) :
    Nat → DebugResult (List Nat × MonotonicBlockAllocator)
  | 0 => .ok ([], m)
  | count + 1 =>
      match m.Allocate with
      | .assertViolation => .assertViolation
      | .ok (block, m') =>
          match m'.AllocateN count with
          | .assertViolation => .assertViolation
          | .ok (blocks, m'') => .ok (block :: blocks, m'')

end MonotonicBlockAllocator

/-- A client-visible operation on a block allocator: an `Allocate()` call or a
`Free(block)` call. -/
inductive BlockOp where
  | alloc
  | free (block : Nat)
  deriving Repr, DecidableEq

/-- Threads a list of operations through a `BlockAllocator`, stopping at the
first assertion violation and discarding the returned addresses. -/
def BlockAllocator.RunOps (a : BlockAllocator) :
    List BlockOp → DebugResult BlockAllocator
  | [] => .ok a
  | BlockOp.alloc :: rest =>
      match a.Allocate with
      | .assertViolation => .assertViolation
      | .ok (_, a') => a'.RunOps rest
  | BlockOp.free block :: rest =>
      match a.Free block with
      | .assertViolation => .assertViolation
      | .ok a' => a'.RunOps rest

/-- Threads a list of operations through a `MonotonicBlockAllocator`. -/
def MonotonicBlockAllocator.RunOps (m : MonotonicBlockAllocator) :
    List BlockOp → DebugResult MonotonicBlockAllocator
  | [] => .ok m
  | BlockOp.alloc :: rest =>
      match m.Allocate with
      | .assertViolation => .assertViolation
      | .ok (_, m') => m'.RunOps rest
  | BlockOp.free block :: rest =>
      match m.Free block with
      | .assertViolation => .assertViolation
      | .ok m' => m'.RunOps rest

/-! ## TwoLevelSegregatedFitAllocator (memory/segregated_allocator.cpp)

The TLSF allocator manages a single contiguous arena. Every physical block is
preceded by a `BlockHeader` holding its size (with the two low bits repurposed
as the `busy` and `is_last` flags) plus a pointer to the previous physical
block; free blocks extend this to a `FreeBlockHeader` with the intrusive
`next_free_`/`previous_free_` links of their segregated list. The embedding
keeps each live header as a record (including both intrusive links) in an
association list keyed by the header's absolute byte address, and each entry
of `free_lists_` as the pointer to the chain's head block. All list surgery
(`InsertBlock`, `RemoveBlock`, `PopBlock`) is performed through these per-block
link fields exactly as the source performs it, so states in which the chains
are stale or inconsistent (which the source can reach, since `InsertBlock`
never updates the old head's `previous_free_`) are represented faithfully.

A write the source performs into a header that has just been absorbed into a
larger block (so its bytes are interior payload of a free block, no longer any
block's header) changes no live header; the absorbed record is dropped. In
every state reached by the theorems below, no dead header address is ever read
back, which keeps that treatment exact.

Constants from the class declaration (its header file is absent from the
sources, so their values are modelled from the spec): the spec describes the
header as size plus a back-pointer with the two low size bits holding the
flags, giving on a 64-bit target `sizeof(BlockHeader) = 16`,
`kSizeMask = 3` (busy and is-last bits), and a minimum block size of
`sizeof(FreeBlockHeader) = 32` so that a free block can store its two
intrusive links. -/

/-- Modelled from the spec: `sizeof(BlockHeader)` — a size word plus the
previous-physical-block pointer on a 64-bit target. -/
def sizeOfBlockHeader : Nat := 16

/-- Modelled from the spec: `BlockHeader::kSizeMask` — the two low bits of
the size word hold the busy and is-last flags. -/
def kSizeMask : Nat := 3

/-- Modelled from the spec: `TwoLevelSegregatedFitAllocator::kMinimumBlockSize`
— a free block must be able to hold a `FreeBlockHeader` (the header plus the
two intrusive free-list links), 32 bytes on a 64-bit target. -/
def kMinimumBlockSize : Nat := 32

/-- Fuel-bounded floor of the base-2 logarithm: counts how often the argument
can be halved while at least 2. Structural recursion on the fuel keeps it
evaluable by kernel reduction; with fuel at least `n` it equals `Nat.log2`. -/
def floorLog2Aux : Nat → Nat → Nat
  | _, 0 => 0
  | n, fuel + 1 => if 2 ≤ n then floorLog2Aux (n / 2) fuel + 1 else 0

/-- Modelled from the spec: `Math::FloorLog2` (math/math.h is absent from the
sources) — the floor of the base-2 logarithm, the TLSF first-level index. -/
def floorLog2 (n : Nat) : Nat := floorLog2Aux n n

/-- With sufficient fuel the auxiliary computation is `Nat.log2`. -/
theorem floorLog2Aux_eq_log2 (fuel n : Nat) (h : n ≤ fuel) :
    floorLog2Aux n fuel = Nat.log2 n := by
  induction fuel generalizing n with
  | zero =>
      have hn : n = 0 := by omega
      subst hn
      rw [Nat.log2]
      simp [floorLog2Aux]
  | succ fuel ih =>
      rw [floorLog2Aux, Nat.log2]
      by_cases h2 : 2 ≤ n
      · have hdiv : n / 2 ≤ fuel := by
          have := Nat.div_lt_self (by omega : 0 < n) (by omega : 1 < 2)
          omega
        rw [if_pos h2, if_pos h2, ih _ hdiv]
      · rw [if_neg h2, if_neg h2]

/-- The executable `floorLog2` agrees with `Nat.log2` everywhere. -/
theorem floorLog2_eq_log2 (n : Nat) : floorLog2 n = Nat.log2 n :=
  floorLog2Aux_eq_log2 n n (Nat.le_refl n)

/-- Live header contents: `GetSize()` (flag bits already stripped), the
`busy` and `is_last` flags, `previous_` (`none` models `nullptr`), and the
`FreeBlockHeader` links `next_free_`/`previous_free_` (meaningful while the
block sits in a segregated list). -/
structure BlockHeader where
  size : Nat
  busy : Bool
  last : Bool
  previous : Option Nat
  nextFree : Option Nat
  prevFree : Option Nat
  deriving Repr, DecidableEq

/-- State of `TwoLevelSegregatedFitAllocator`: `second_level_index_`, the
heads of the segregated `free_lists_`, `last_block_`, the live
physical-block headers keyed by address, and the bump head of the backing
arena pool (`pool_`, which carves new blocks off the untouched tail of the
arena starting at its base). -/
structure TwoLevelSegregatedFitAllocator where
  secondLevelIndex : Nat
  freeLists : List (Option Nat)
  lastBlock : Option Nat
  blocks : List (Nat × BlockHeader)
  poolHead : Nat
  base : Nat
  capacity : Nat
  deriving Repr, DecidableEq

namespace TwoLevelSegregatedFitAllocator

/-- Embeds the `TwoLevelSegregatedFitAllocator(name, capacity,
second_level_index)` constructor: the arena starts untouched and
`free_lists_` is sized `(FloorLog2(capacity) + 1) * 2^second_level_index_`. -/
def mk0 (capacity secondLevelIndex base : Nat) :
    TwoLevelSegregatedFitAllocator :=
  { secondLevelIndex := secondLevelIndex
    freeLists :=
      List.replicate ((floorLog2 capacity + 1) * (1 <<< secondLevelIndex)) none
    lastBlock := none
    blocks := []
    poolHead := base
    base := base
    capacity := capacity }

/-- Reads the live header at an address, if any. -/
def getBlock (s : TwoLevelSegregatedFitAllocator) (addr : Nat) :
    Option BlockHeader :=
  (s.blocks.find? (fun c => c.1 == addr)).map (fun c => c.2)

/-- Reads the live header at an address; the default is never reached in the
verified traces (the source would be dereferencing a dangling pointer). -/
def getBlockD (s : TwoLevelSegregatedFitAllocator) (addr : Nat) : BlockHeader :=
  (s.getBlock addr).getD ⟨0, false, false, none, none, none⟩

/-- Writes the header at an address (creating it when absent). -/
def setBlock (s : TwoLevelSegregatedFitAllocator) (addr : Nat)
    (hdr : BlockHeader) : TwoLevelSegregatedFitAllocator :=
  if s.blocks.any (fun c => c.1 == addr) then
    { s with blocks :=
        s.blocks.map (fun c => if c.1 == addr then (addr, hdr) else c) }
  else
    { s with blocks := s.blocks ++ [(addr, hdr)] }

/-- Discards the header at an address whose bytes have been absorbed into a
larger preceding block (the physical block it headed no longer exists). -/
def eraseBlock (s : TwoLevelSegregatedFitAllocator) (addr : Nat) :
    TwoLevelSegregatedFitAllocator :=
  { s with blocks := s.blocks.filter (fun c => c.1 != addr) }

/-- Embeds `GetFreeListIndexBySize(size)`:
`first_level = FloorLog2(size)`,
`second_level = (size ^ (1 << first_level)) >> (first_level - second_level_index_)`,
flattened as `first_level * 2^second_level_index_ + second_level`. -/
def GetFreeListIndexBySize (s : TwoLevelSegregatedFitAllocator)
    (size : Nat) : Nat :=
  let firstLevel := floorLog2 size
  let secondLevel :=
    (size ^^^ (1 <<< firstLevel)) >>> (firstLevel - s.secondLevelIndex)
  firstLevel * (1 <<< s.secondLevelIndex) + secondLevel

/-- Embeds `InsertBlock(block)`: null the block's `previous_free_`, chain its
`next_free_` to the current head of the bucket matching its size and make it
the new head. The source never updates the old head's `previous_free_`
back-pointer; neither does the model. -/
def InsertBlock (s : TwoLevelSegregatedFitAllocator) (addr : Nat) :
    TwoLevelSegregatedFitAllocator :=
  let hdr := s.getBlockD addr
  let index := s.GetFreeListIndexBySize hdr.size
  let s := s.setBlock addr
    { hdr with prevFree := none, nextFree := s.freeLists.getD index none }
  { s with freeLists := s.freeLists.set index (some addr) }

/-- Embeds `RemoveBlock(block)`: when the block records a `previous_free_`,
splice it out behind that predecessor; otherwise overwrite the head of the
bucket computed from the block's current size with the block's `next_free_`;
then fix the successor's back-pointer if there is one. -/
def RemoveBlock (s : TwoLevelSegregatedFitAllocator) (addr : Nat) :
    TwoLevelSegregatedFitAllocator :=
  let hdr := s.getBlockD addr
  let s :=
    match hdr.prevFree with
    | some pf =>
        let pfh := s.getBlockD pf
        s.setBlock pf { pfh with nextFree := hdr.nextFree }
    | none =>
        let index := s.GetFreeListIndexBySize hdr.size
        { s with freeLists := s.freeLists.set index hdr.nextFree }
  match hdr.nextFree with
  | some nf =>
      let nfh := s.getBlockD nf
      s.setBlock nf { nfh with prevFree := hdr.prevFree }
  | none => s

/-- Embeds `PopBlock(index)`: pop the head of the given segregated list,
null the new head's back-pointer and mark the popped block busy. Returns
`none` when the list is empty (the source would return `nullptr`;
`GetFreeBlockBySize` only pops from a non-empty list). -/
def PopBlock (s : TwoLevelSegregatedFitAllocator) (index : Nat) :
    Option Nat × TwoLevelSegregatedFitAllocator :=
  match s.freeLists.getD index none with
  | none => (none, s)
  | some addr =>
      let hdr := s.getBlockD addr
      let s := { s with freeLists := s.freeLists.set index hdr.nextFree }
      let s :=
        match hdr.nextFree with
        | some nf =>
            let nfh := s.getBlockD nf
            s.setBlock nf { nfh with prevFree := none }
        | none => s
      let hdr := s.getBlockD addr
      (some addr, s.setBlock addr { hdr with busy := true })

/-- Embeds `PushBlock(block)` — the `Free` path with coalescing. Reads of the
original header (`block->IsLast()`, `block->GetSize()`) in the second merge
happen before any write to that header, so they see the values captured in
`b`. When the first merge fired, the source grows `block` — whose header
bytes have just been absorbed into the surviving previous block — instead of
`merged_block`, so its second-merge size/flag writes land in dead bytes and
change no live header; the next physical block then stays removed from its
bucket without being merged into the surviving block. -/
def PushBlock (s : TwoLevelSegregatedFitAllocator) (baddr : Nat) :
    TwoLevelSegregatedFitAllocator :=
  let b := s.getBlockD baddr
  let nextAddr := baddr + b.size
  -- Merge the block with the previous physical block
  let prevMerge :=
    match b.previous with
    | some p => !(s.getBlockD p).busy
    | none => false
  let merged := if prevMerge then b.previous.getD baddr else baddr
  let s :=
    if prevMerge then
      let p := b.previous.getD baddr
      let s := s.RemoveBlock p
      let ph := s.getBlockD p
      let s := s.setBlock p { ph with size := ph.size + b.size, last := b.last }
      s.eraseBlock baddr
    else s
  -- Merge the block with the next physical block (condition read from the
  -- original header; the source never dereferences past the arena because of
  -- the short-circuit on the is-last flag)
  let nextMerge := !b.last && !(s.getBlockD nextAddr).busy
  let s :=
    if nextMerge then
      let nh := s.getBlockD nextAddr
      let s := s.RemoveBlock nextAddr
      if merged == baddr then
        let bh := s.getBlockD baddr
        let s := s.setBlock baddr
          { bh with size := b.size + nh.size, last := nh.last }
        s.eraseBlock nextAddr
      else
        -- the grown size and flag are written into the dead header absorbed
        -- by the previous block: no live header changes, and the removed
        -- next block is never reinserted
        s
    else s
  -- Update the last-block pointer, or the next block's previous_ pointer
  let mh := s.getBlockD merged
  let s :=
    if mh.last then
      { s with lastBlock := some merged }
    else
      let nb := merged + mh.size
      match s.getBlock nb with
      | some nbh => s.setBlock nb { nbh with previous := some merged }
      | none => s
  -- Insert the merged block in the proper free list
  let mh := s.getBlockD merged
  let s := s.setBlock merged { mh with busy := false }
  s.InsertBlock merged

/-- Embeds `SplitBlock(block, size)`: when the remainder would still meet the
minimum block size, carve it off as a new free block right after the first
`size` bytes, shrink the original block (which stays busy and can no longer be
last) and push the remainder. The remainder's free-list links are written by
the `InsertBlock` inside `PushBlock` before they are ever read. -/
def SplitBlock (s : TwoLevelSegregatedFitAllocator) (baddr size : Nat) :
    TwoLevelSegregatedFitAllocator :=
  let bh := s.getBlockD baddr
  if bh.size > size + kMinimumBlockSize then
    let remainingAddr := baddr + size
    let s := s.setBlock remainingAddr
      { size := bh.size - size, busy := false, last := bh.last,
        previous := some baddr, nextFree := none, prevFree := none }
    let s := s.setBlock baddr { bh with size := size, last := false }
    s.PushBlock remainingAddr
  else s

/-- Finds the first index at or after `index` whose segregated list is not
empty, scanning the `fuel` remaining buckets (the source's upward search
loop, with `fuel = free_lists_.size() - index`). -/
def findIndexFrom (freeLists : List (Option Nat)) : Nat → Nat → Option Nat
  | _, 0 => none
  | index, fuel + 1 =>
      if (freeLists.getD index none).isSome then some index
      else findIndexFrom freeLists (index + 1) fuel

/-- Embeds `GetFreeBlockBySize(size)`: grow the request by the header size,
clamp to the minimum block size, round to the flag-bit granularity
(`kSizeMask + 1`), then search the segregated lists from the ideal bucket
upwards; on a hit pop and split, otherwise carve a new block from the arena's
untouched tail (`pool_.Allocate`), which becomes the new last block. Returns
the address of the block header. -/
def GetFreeBlockBySize (s : TwoLevelSegregatedFitAllocator) (size : Nat) :
    Nat × TwoLevelSegregatedFitAllocator :=
  let size := size + sizeOfBlockHeader
  let size := max size kMinimumBlockSize
  let size := mathCeil size (kSizeMask + 1)
  let index := s.GetFreeListIndexBySize size
  match findIndexFrom s.freeLists index (s.freeLists.length - index) with
  | some index =>
      match s.PopBlock index with
      | (some baddr, s) => (baddr, s.SplitBlock baddr size)
      | (none, s) => (0, s)
  | none =>
      let baddr := s.poolHead
      let s := { s with poolHead := s.poolHead + size }
      let s := s.setBlock baddr
        { size := size, busy := true, last := true, previous := s.lastBlock,
          nextFree := none, prevFree := none }
      let s :=
        match s.lastBlock with
        | some lb =>
            let lh := s.getBlockD lb
            s.setBlock lb { lh with last := false }
        | none => s
      (baddr, { s with lastBlock := some baddr })

/-- Embeds `Allocate(size)`: returns `GetFreeBlockBySize(size)->begin()`,
the first payload address past the header. -/
def Allocate (s : TwoLevelSegregatedFitAllocator) (size : Nat) :
    Nat × TwoLevelSegregatedFitAllocator :=
  let (baddr, s) := s.GetFreeBlockBySize size
  (baddr + sizeOfBlockHeader, s)

/-- Embeds `Allocate(size, alignment)`: the source allocates
`size + alignment` bytes and returns the block's `begin()` unchanged —
no alignment is applied to the returned address. -/
def AllocateAligned (s : TwoLevelSegregatedFitAllocator)
    (size alignment : Nat) : Nat × TwoLevelSegregatedFitAllocator :=
  let (baddr, s) := s.GetFreeBlockBySize (size + alignment)
  (baddr + sizeOfBlockHeader, s)

/-- Embeds `Free(block)`: recover the header preceding the payload pointer
and push it. -/
def Free (s : TwoLevelSegregatedFitAllocator) (ptr : Nat) :
    TwoLevelSegregatedFitAllocator :=
  s.PushBlock (ptr - sizeOfBlockHeader)

/-- Collects the addresses reachable along a segregated list chain, following
the intrusive `next_free_` links from a head for at most `fuel` steps. -/
def chainFrom (s : TwoLevelSegregatedFitAllocator) :
    Option Nat → Nat → List Nat
  | _, 0 => []
  | none, _ => []
  | some addr, fuel + 1 =>
      addr :: chainFrom s (s.getBlockD addr).nextFree fuel

/-- Collects every address sitting in any segregated list of the state. -/
def freeListedBlocks (s : TwoLevelSegregatedFitAllocator) : List Nat :=
  (s.freeLists.map (fun head => s.chainFrom head s.blocks.length)).flatten
end TwoLevelSegregatedFitAllocator

end Syntropy

namespace Syntropy

/-! ## Theorems for claims C7, C8 and C9 -/

/-- A run of allocations never changes the managed range itself, only the
head pointer. -/
theorem RunSequence_range (s : SequentialMemoryResource)
    (reqs : List (Nat × Nat)) :
    (s.RunSequence reqs).1.rangeBegin = s.rangeBegin ∧
    (s.RunSequence reqs).1.rangeEnd = s.rangeEnd := by
  induction reqs generalizing s with
  | nil => exact ⟨rfl, rfl⟩
  | cons r rest ih =>
      obtain ⟨size, alignment⟩ := r
      simp only [SequentialMemoryResource.RunSequence,
        SequentialMemoryResource.Allocate]
      by_cases h : getAligned s.head alignment + size ≤ s.rangeEnd <;>
        simp [h, ih]

/-- C7: for the unchunked bump allocator (`SequentialMemoryResource`),
take a checkpoint via `SaveState`, perform any sequence of allocations,
restore the checkpoint with `RestoreState`, and repeat the identical sequence
of sizes and alignments: the second run returns exactly the same sequence of
results (hence the same addresses) as the first run. -/
theorem C7_sequential_rewind_repeat (s : SequentialMemoryResource)
    (requests : List (Nat × Nat)) :
    (((s.RunSequence requests).1.RestoreState s.SaveState).RunSequence
        requests).2 = (s.RunSequence requests).2 := by
  have h := RunSequence_range s requests
  have hs : (s.RunSequence requests).1.RestoreState s.SaveState = s := by
    obtain ⟨hb, he⟩ := h
    cases hrun : (s.RunSequence requests).1 with
    | mk b e hd =>
        rw [hrun] at hb he
        cases s with
        | mk sb se shd =>
            simp only [SequentialMemoryResource.RestoreState,
              SequentialMemoryResource.SaveState] at *
            simp_all
  rw [hs]

/-- C8: `LinearAllocator::Deallocate(block)` rewinds the head to the block's
begin if and only if the block's end equals the current head; for any other
block inside the managed range the allocator state is completely unchanged. -/
theorem C8_linear_deallocate_last_only (s : LinearAllocator)
    (blockBegin blockEnd : Nat)
    (_hcontained : s.rangeBegin ≤ blockBegin ∧ blockEnd ≤ s.rangeEnd) :
    (blockEnd = s.head →
      s.Deallocate blockBegin blockEnd = { s with head := blockBegin }) ∧
    (blockEnd ≠ s.head → s.Deallocate blockBegin blockEnd = s) := by
  constructor
  · intro h
    simp [LinearAllocator.Deallocate, h]
  · intro h
    simp [LinearAllocator.Deallocate, h]

/-- Witness for C8 at a concrete input: an allocator over `[0, 100)` with head
at `40`; deallocating the block `[16, 40)` (which ends at the head) rewinds the
head to `16`, while deallocating `[8, 16)` (any other contained block) leaves
the state unchanged. -/
theorem C8_linear_deallocate_last_only_witness :
    (LinearAllocator.Deallocate ⟨0, 100, 40⟩ 16 40 = ⟨0, 100, 16⟩) ∧
    (LinearAllocator.Deallocate ⟨0, 100, 40⟩ 8 16 = ⟨0, 100, 40⟩) := by
  constructor
  · exact (C8_linear_deallocate_last_only ⟨0, 100, 40⟩ 16 40
      (by exact ⟨Nat.zero_le _, by norm_num⟩)).1 rfl
  · exact (C8_linear_deallocate_last_only ⟨0, 100, 40⟩ 8 16
      (by exact ⟨Nat.zero_le _, by norm_num⟩)).2 (by norm_num)

/-- C9: `SequentialMemoryResource::Allocate(size, alignment)` returns an empty
range exactly when the aligned head plus the requested size would exceed the
end of the managed range; it is a total function (never raises), and on this
failure the state — in particular the head — is unchanged. -/
theorem C9_sequential_allocate_overflow (s : SequentialMemoryResource)
    (size alignment : Nat) :
    ((s.Allocate size alignment).2 = none ↔
      s.rangeEnd < getAligned s.head alignment + size) ∧
    ((s.Allocate size alignment).2 = none → (s.Allocate size alignment).1 = s) := by
  unfold SequentialMemoryResource.Allocate
  by_cases h : getAligned s.head alignment + size ≤ s.rangeEnd
  · simp only [h, if_pos]
    constructor
    · simp
      omega
    · simp
  · simp only [h, if_neg, not_false_iff]
    simp
    omega

/-- Witness for C9 at a concrete input: over the range `[0, 10)` with head `5`,
requesting 8 bytes at alignment 4 fails (aligned head `8` plus `8` exceeds
`10`) and the state is unchanged. -/
theorem C9_sequential_allocate_overflow_witness :
    ((SequentialMemoryResource.Allocate ⟨0, 10, 5⟩ 8 4).2 = none ↔
      (10 : Nat) < getAligned 5 4 + 8) ∧
    ((SequentialMemoryResource.Allocate ⟨0, 10, 5⟩ 8 4).2 = none →
      (SequentialMemoryResource.Allocate ⟨0, 10, 5⟩ 8 4).1 = ⟨0, 10, 5⟩) :=
  C9_sequential_allocate_overflow ⟨0, 10, 5⟩ 8 4

/-! ## Theorems for claims C4 and C10 -/

/-- C4: for a `QuotaAllocator` with quota Q over an underlying allocator that
never returns a block larger than requested (every concrete allocator in the
family returns a span of exactly the requested size, or an empty one), the
tracked outstanding allocation size never exceeds Q: `Allocate` forwards to
the underlying allocator exactly when the current allocation size plus the
requested size is at most Q — growing the counter by the size of the block
actually returned — and otherwise returns an empty block leaving the
underlying allocator untouched; `Deallocate` always forwards and decreases
the tracked size by the size of the deallocated block. -/
theorem C4_quota_never_exceeded {σ : Type} (M : AllocatorModel σ)
    (q : QuotaAllocator σ) (size alignment : Int)
    (hM : ∀ a s al, 0 ≤ s → 0 ≤ (M.alloc a s al).2 ∧ (M.alloc a s al).2 ≤ s)
    (hsize : 0 ≤ size)
    (hq : q.GetAllocationSize ≤ q.GetQuota) :
    (QuotaAllocator.Allocate M q size alignment).1.GetAllocationSize ≤
      q.GetQuota ∧
    (q.allocationSize + size ≤ q.quota →
      QuotaAllocator.Allocate M q size alignment =
        ({ allocator := (M.alloc q.allocator size alignment).1,
           quota := q.quota,
           allocationSize :=
             q.allocationSize + (M.alloc q.allocator size alignment).2 },
         (M.alloc q.allocator size alignment).2)) ∧
    (¬ q.allocationSize + size ≤ q.quota →
      QuotaAllocator.Allocate M q size alignment = (q, 0)) ∧
    (∀ blockSize,
      QuotaAllocator.Deallocate M q blockSize alignment =
        { allocator := M.dealloc q.allocator blockSize alignment,
          quota := q.quota,
          allocationSize := q.allocationSize - blockSize }) := by
  refine ⟨?_, ?_, ?_, fun blockSize => rfl⟩
  · by_cases h : q.allocationSize + size ≤ q.quota
    · have hb := hM q.allocator size alignment hsize
      simp only [QuotaAllocator.Allocate, QuotaAllocator.GetAllocationSize,
        QuotaAllocator.GetQuota, h, if_pos]
      omega
    · simpa [QuotaAllocator.Allocate, h, QuotaAllocator.GetAllocationSize,
        QuotaAllocator.GetQuota] using hq
  · intro h
    simp [QuotaAllocator.Allocate, h]
  · intro h
    simp [QuotaAllocator.Allocate, h]

/-- Witness for C4 at a concrete input: the underlying allocator is a plain
counter on `Int` that always hands out exactly the requested size; the quota
allocator starts with quota 10 and 8 bytes outstanding, and a request of 2
keeps the tracked size within the quota while forwarding, a `Deallocate`
decrements the counter, and over-quota behaviour is covered by the `¬ fits`
conjunct instantiated vacuously. -/
theorem C4_quota_never_exceeded_witness :
    ((QuotaAllocator.Allocate
        ⟨fun a s _ => (a + s, s), fun a s _ => a - s⟩
        (⟨0, 10, 8⟩ : QuotaAllocator Int) 2 1).1.GetAllocationSize ≤
      (⟨0, 10, 8⟩ : QuotaAllocator Int).GetQuota) ∧
    (QuotaAllocator.Deallocate
        ⟨fun a s _ => (a + s, s), fun a s _ => a - s⟩
        (⟨0, 10, 8⟩ : QuotaAllocator Int) 3 1 =
      { allocator := -3, quota := 10, allocationSize := 5 }) := by
  have h := C4_quota_never_exceeded
    (⟨fun a s _ => (a + s, s), fun a s _ => a - s⟩ : AllocatorModel Int)
    (⟨0, 10, 8⟩ : QuotaAllocator Int) 2 1
    (fun a s al hs => ⟨hs, le_refl s⟩) (by norm_num)
    (by norm_num [QuotaAllocator.GetAllocationSize, QuotaAllocator.GetQuota])
  refine ⟨h.1, ?_⟩
  have hd := h.2.2.2 3
  simpa using hd

/-- C10: for a `QuotaAllocator`, when the quota check passes but the
underlying allocator fails and returns an empty block (size 0),
`GetAllocationSize()` is unchanged by the call: the counter grows by the size
of the block actually returned, never by the requested size, so failed
forwarded allocations consume no quota. -/
theorem C10_quota_failed_forward_free {σ : Type} (M : AllocatorModel σ)
    (q : QuotaAllocator σ) (size alignment : Int)
    (hfits : q.allocationSize + size ≤ q.quota)
    (hempty : (M.alloc q.allocator size alignment).2 = 0) :
    (QuotaAllocator.Allocate M q size alignment).1.GetAllocationSize =
      q.GetAllocationSize := by
  simp [QuotaAllocator.Allocate, hfits, QuotaAllocator.GetAllocationSize,
    hempty]

/-- Witness for C10 at a concrete input: an underlying allocator on the unit
state that always fails (returns an empty span of size 0); with quota 10 and
4 bytes outstanding, a request of 2 passes the quota check, forwards, fails,
and leaves the tracked allocation size at 4. -/
theorem C10_quota_failed_forward_free_witness :
    (QuotaAllocator.Allocate
        (⟨fun a _ _ => (a, 0), fun a _ _ => a⟩ : AllocatorModel Unit)
        (⟨(), 10, 4⟩ : QuotaAllocator Unit) 2 1).1.GetAllocationSize =
      (⟨(), 10, 4⟩ : QuotaAllocator Unit).GetAllocationSize :=
  C10_quota_failed_forward_free _ _ 2 1 (by norm_num) rfl

/-! ## Theorems for claim C2 -/

/-- C2 counterexample: for a `BlockAllocator(capacity = 64 KiB,
block_size = 4 KiB)` (allocation granularity 4 KiB), the 17th consecutive
`Allocate()` does not return an empty/null result as the claim states: the
source bumps the head unconditionally and then trips the fatal debug
assertion `SYNTROPY_ASSERT(GetSize() <= capacity_)`; no code path of
`BlockAllocator::Allocate` returns a null block. -/
theorem C2_counterexample :
    (BlockAllocator.mk0 65536 4096 4096 0).AllocateN 17 =
      DebugResult.assertViolation := by
  decide

/-- C2 amended: with capacity 64 KiB and block size 4 KiB, 16 sequential
allocations all succeed, return the pairwise disjoint blocks at
`0, 4096, …, 61440`, and the 17th `Allocate()` violates the capacity debug
assertion (fatal in debug builds) instead of returning an empty result; the
same holds for `MonotonicBlockAllocator`. -/
theorem C2_amended :
    ((BlockAllocator.mk0 65536 4096 4096 0).AllocateN 16 =
      .ok ((List.range 16).map (fun i => i * 4096),
        { blockSize := 4096, capacity := 65536, base := 0, head := 65536,
          freeStack := [] })) ∧
    List.Pairwise (fun x y => x + 4096 ≤ y ∨ y + 4096 ≤ x)
      ((List.range 16).map (fun i => i * 4096)) ∧
    BlockAllocator.Allocate
      { blockSize := 4096, capacity := 65536, base := 0, head := 65536,
        freeStack := [] } = .assertViolation ∧
    ((MonotonicBlockAllocator.mk0 65536 4096 4096 0).AllocateN 16 =
      .ok ((List.range 16).map (fun i => i * 4096),
        { blockSize := 4096, capacity := 65536, base := 0, head := 65536,
          free := [] })) ∧
    MonotonicBlockAllocator.Allocate
      { blockSize := 4096, capacity := 65536, base := 0, head := 65536,
        free := [] } = .assertViolation := by
  refine ⟨by decide, by decide, by decide, by decide, by decide⟩

/-! ## Theorems for claim C6 -/

/-- The formula the claim asserts for `GetSize()` of both block allocators:
high-water mark (distance from base to head) minus the number of freed blocks
held on the free list times the block size. Stated from the spec's words, to
be compared against the source's `GetSize`. -/
def MonotonicBlockAllocator.claimedGetSize (m : MonotonicBlockAllocator) : Nat :=
  (m.head - m.base) - m.free.length * m.blockSize

/-- C6 counterexample: for a fresh
`MonotonicBlockAllocator(capacity = 64 KiB, block_size = 4 KiB)`, one
`Allocate()` followed by `Free` of that block reaches a state where the
source's `GetSize()` returns 4096 while the claim's formula (high-water mark
minus freed-count × block size) yields 0: `MonotonicBlockAllocator::GetSize`
does not subtract the free list. -/
theorem C6_counterexample :
    (MonotonicBlockAllocator.mk0 65536 4096 4096 0).RunOps
        [BlockOp.alloc, BlockOp.free 0] =
      .ok { blockSize := 4096, capacity := 65536, base := 0, head := 4096,
            free := [0] } ∧
    MonotonicBlockAllocator.GetSize
      { blockSize := 4096, capacity := 65536, base := 0, head := 4096,
        free := [0] } = 4096 ∧
    MonotonicBlockAllocator.claimedGetSize
      { blockSize := 4096, capacity := 65536, base := 0, head := 4096,
        free := [0] } = 0 := by
  refine ⟨by decide, by decide, by decide⟩

/-- After a successful run, a `BlockAllocator`'s non-head fields are those of
the initial state and its head has advanced by a whole number of blocks. -/
theorem BlockAllocator.runOps_preserves_layout (a a' : Syntropy.BlockAllocator)
    (ops : List BlockOp) (h : a.RunOps ops = .ok a') :
    a'.blockSize = a.blockSize ∧ a'.base = a.base ∧
    ∃ bumps, a'.head = a.head + a.blockSize * bumps := by
  induction ops generalizing a with
  | nil =>
      simp only [RunOps] at h
      cases h
      exact ⟨rfl, rfl, 0, by omega⟩
  | cons op rest ih =>
      cases op with
      | alloc =>
          simp only [RunOps, Allocate] at h
          cases hfs : a.freeStack with
          | nil =>
              rw [hfs] at h
              by_cases hcap : BlockAllocator.GetSize
                  { blockSize := a.blockSize, capacity := a.capacity,
                    base := a.base, head := a.head + a.blockSize,
                    freeStack := [] } ≤ a.capacity
              · rw [if_pos hcap] at h
                obtain ⟨h1, h2, bumps, h3⟩ := ih _ h
                exact ⟨h1, h2, bumps + 1, by simp [Nat.mul_succ] at h3 ⊢; omega⟩
              · rw [if_neg hcap] at h
                simp at h
          | cons block rest' =>
              rw [hfs] at h
              obtain ⟨h1, h2, bumps, h3⟩ := ih _ h
              exact ⟨h1, h2, bumps, by simp at h3 ⊢; omega⟩
      | free block =>
          simp only [RunOps, Free] at h
          by_cases hc : a.base ≤ block ∧ block < a.head
          · rw [if_pos hc] at h
            obtain ⟨h1, h2, bumps, h3⟩ := ih _ h
            exact ⟨h1, h2, bumps, by simp at h3 ⊢; omega⟩
          · rw [if_neg hc] at h
            simp at h

/-- After a successful run, a `MonotonicBlockAllocator`'s non-head fields are
those of the initial state and its head has advanced by whole blocks. -/
theorem MonotonicBlockAllocator.runOps_keeps_layout
    (m m' : Syntropy.MonotonicBlockAllocator) (ops : List BlockOp)
    (h : m.RunOps ops = .ok m') :
    m'.blockSize = m.blockSize ∧ m'.base = m.base ∧
    ∃ bumps, m'.head = m.head + m.blockSize * bumps := by
  induction ops generalizing m with
  | nil =>
      simp only [RunOps] at h
      cases h
      exact ⟨rfl, rfl, 0, by omega⟩
  | cons op rest ih =>
      cases op with
      | alloc =>
          simp only [RunOps, Allocate] at h
          cases hfs : m.free with
          | cons block rest' =>
              rw [hfs] at h
              obtain ⟨h1, h2, bumps, h3⟩ := ih _ h
              exact ⟨h1, h2, bumps, by simp at h3 ⊢; omega⟩
          | nil =>
              rw [hfs] at h
              by_cases hcap : MonotonicBlockAllocator.GetSize
                  { blockSize := m.blockSize, capacity := m.capacity,
                    base := m.base, head := m.head + m.blockSize,
                    free := [] } ≤ m.capacity
              · rw [if_pos hcap] at h
                obtain ⟨h1, h2, bumps, h3⟩ := ih _ h
                exact ⟨h1, h2, bumps + 1, by simp [Nat.mul_succ] at h3 ⊢; omega⟩
              · rw [if_neg hcap] at h
                simp at h
      | free block =>
          simp only [RunOps, Free] at h
          by_cases hc : m.base ≤ block ∧ block < m.head
          · rw [if_pos hc] at h
            obtain ⟨h1, h2, bumps, h3⟩ := ih _ h
            exact ⟨h1, h2, bumps, by simp at h3 ⊢; omega⟩
          · rw [if_neg hc] at h
            simp at h

/-- C6 amended: after any successful operation sequence from a freshly
constructed allocator, `BlockAllocator::GetSize()` returns the high-water
mark (a whole number of blocks above the base) minus the freed-block count
times the block size, while `MonotonicBlockAllocator::GetSize()` returns the
high-water mark alone, not reduced by its free list. -/
theorem C6_amended (capacity blockSize granularity base : Nat)
    (ops : List BlockOp) :
    (∀ a', (BlockAllocator.mk0 capacity blockSize granularity base).RunOps ops =
        .ok a' →
      a'.GetSize = (a'.head - a'.base) - a'.freeStack.length * a'.blockSize ∧
      ∃ bumps, a'.head = a'.base + a'.blockSize * bumps) ∧
    (∀ m', (MonotonicBlockAllocator.mk0 capacity blockSize granularity
        base).RunOps ops = .ok m' →
      m'.GetSize = m'.head - m'.base ∧
      ∃ bumps, m'.head = m'.base + m'.blockSize * bumps) := by
  constructor
  · intro a' h
    obtain ⟨h1, h2, bumps, h3⟩ := BlockAllocator.runOps_preserves_layout _ a' ops h
    refine ⟨rfl, bumps, ?_⟩
    rw [h1, h2, h3]
    rfl
  · intro m' h
    obtain ⟨h1, h2, bumps, h3⟩ := MonotonicBlockAllocator.runOps_keeps_layout _ m' ops h
    refine ⟨rfl, bumps, ?_⟩
    rw [h1, h2, h3]
    rfl

/-! ## Theorems for claims C1 and C3 -/

/-- Supporting fact for the alignment contract: the plain linear allocator
does satisfy it — every successful `LinearAllocator::Allocate(size, alignment)`
with a power-of-two alignment returns a block whose address is a multiple of
the alignment and whose length is exactly `size`. This isolates the
two-level segregated fit allocator as the family member that breaks the
contract. -/
theorem LinearAllocator.allocate_block_aligned (s : LinearAllocator)
    (size k b e : Nat) (h : (s.Allocate size (2 ^ k)).2 = some (b, e)) :
    2 ^ k ∣ b ∧ e = b + size := by
  simp only [LinearAllocator.Allocate] at h
  split at h
  · simp only [Option.some.injEq, Prod.mk.injEq] at h
    obtain ⟨hb, he⟩ := h
    subst hb
    subst he
    exact ⟨getAligned_dvd _ _, rfl⟩
  · simp at h

set_option maxRecDepth 100000 in
/-- C1: the source of `TwoLevelSegregatedFitAllocator::Allocate(size, alignment)`
is `GetFreeBlockBySize(size + alignment)->begin()` — it sets aside
`alignment` extra bytes but never aligns the returned pointer (its siblings
call `Memory::Align` and assert alignment; this one does not). On a fresh
1 MiB arena whose page-aligned base is 4096, `Allocate(8, 32)` returns
`4112 = base + sizeof(BlockHeader)`, which is not a multiple of the requested
power-of-two alignment 32, violating the claimed alignment guarantee. -/
theorem C1_tlsf_allocate_misaligned :
    (TwoLevelSegregatedFitAllocator.AllocateAligned
        (TwoLevelSegregatedFitAllocator.mk0 1048576 2 4096) 8 32).1 = 4112 ∧
    4112 % 32 ≠ 0 := by
  refine ⟨by decide, by decide⟩

/-- Arena state exercising the coalescing path of `Free` with both physical
neighbours free: allocate four 48-byte blocks P, X, N, C (each a 64-byte
physical block at 4096, 4160, 4224, 4288), then free P, free N, and finally
free X, whose predecessor P and successor N are both free. -/
def c3State : TwoLevelSegregatedFitAllocator :=
  let t1 := (TwoLevelSegregatedFitAllocator.mk0 1048576 2 4096).Allocate 48
  let t2 := t1.2.Allocate 48
  let t3 := t2.2.Allocate 48
  let t4 := t3.2.Allocate 48
  ((t4.2.Free t1.1).Free t3.1).Free t2.1

set_option maxRecDepth 100000 in
/-- C3: freeing block X when both physical neighbours P and N are free does
not behave as claimed. The surviving header P grows only by X's size
(to 128 bytes, not the full `|P| + |X| + |N| = 192`), and the following
neighbour N (the 64-byte free block at 4224) is removed from its bucket but
never reinserted into any segregated list — its space leaks. Consequently a
follow-up request whose physical block size is 192 bytes (176-byte payload)
cannot be served from the coalesced space and carves fresh memory from the
arena tail at 4352 (payload 4368) instead. -/
theorem C3_tlsf_double_neighbor_merge_bug :
    (c3State.getBlockD 4096).size = 128 ∧
    (c3State.getBlockD 4096).busy = false ∧
    (c3State.getBlockD 4224).size = 64 ∧
    (c3State.getBlockD 4224).busy = false ∧
    4224 ∉ c3State.freeListedBlocks ∧
    (c3State.Allocate 176).1 = 4368 := by
  refine ⟨by decide, by decide, by decide, by decide, by decide, by decide⟩

/-- Witness for C6 amended at a concrete input: one `Allocate()` followed by
`Free(0)` on each fresh allocator with capacity 64 KiB, block size 4 KiB and
granularity 4 KiB; the decommitting variant then reports size 0 and the
monotonic variant reports 4096. -/
theorem C6_amended_witness :
    (BlockAllocator.GetSize
        { blockSize := 4096, capacity := 65536, base := 0, head := 4096,
          freeStack := [0] } =
      (4096 - 0) - 1 * 4096 ∧
      ∃ bumps, (4096 : Nat) = 0 + 4096 * bumps) ∧
    (MonotonicBlockAllocator.GetSize
        { blockSize := 4096, capacity := 65536, base := 0, head := 4096,
          free := [0] } = 4096 - 0 ∧
      ∃ bumps, (4096 : Nat) = 0 + 4096 * bumps) := by
  have h := C6_amended 65536 4096 4096 0 [BlockOp.alloc, BlockOp.free 0]
  have ha := h.1
    { blockSize := 4096, capacity := 65536, base := 0, head := 4096,
      freeStack := [0] } (by decide)
  have hm := h.2
    { blockSize := 4096, capacity := 65536, base := 0, head := 4096,
      free := [0] } (by decide)
  exact ⟨ha, hm⟩

end Syntropy
